import Mathlib

/-!
# Verification of the aircraft-availability temporal aggregation engine

Shallow embedding of the engine logic shared by the `App*.js` variants of
the repository: the calendar grid builder (`buildWeeks`), the time interval
model (clock-code parsing and the cross-midnight rule used by
`renderBlocks`), the weather join index (`metarLookup`), the category
membership test (`blockHasCategory`), the filtering overlay aggregator
(`renderBlocks` with category filters), and the temperature band map
(`tempToColor`).

Modelling conventions:
* A calendar date is an integer day number (days since 1970-01-01), so that
  "the next calendar date" is `d + 1` and the JavaScript `getDay()`
  weekday (Sunday = 0) of day `d` is `(d + 4) % 7` (1970-01-01 was a
  Thursday).  The JS code only ever compares date keys for equality, adds
  whole days, and reads the weekday, so this is a faithful model of the
  `Date` / ISO-string keys it uses.
* 4-digit clock codes `"HHMM"` are modelled by their two parsed fields
  (`+start.slice(0,2)` and `+start.slice(2)`); the code assumes the string
  is well formed and never validates it.
* JavaScript numbers appearing in the fractional-hour arithmetic are
  modelled by rationals, and the minute arithmetic of the membership test
  (all integral) by naturals.
-/

/-- The four flight categories of a METAR observation (a closed
enumeration in the source: `LIFR`, `IFR`, `MVFR`, `VFR`). -/
inductive FlightCat where
  | LIFR
  | IFR
  | MVFR
  | VFR
deriving DecidableEq, Repr, Fintype

/-- The fixed iteration order of `Object.entries(catFilters)` in the
source (insertion order of the `catFilters` object literal). -/
def allCats : List FlightCat := [.LIFR, .IFR, .MVFR, .VFR]

/-- A parsed 4-digit clock code `"HHMM"`: `hh = +s.slice(0,2)`,
`mm = +s.slice(2)`. -/
structure ClockCode where
  hh : Nat
  mm : Nat
deriving DecidableEq, Repr

/-- A well-formed clock code per the spec: hour 0–23, minutes 0–59. -/
def ClockCode.WF (c : ClockCode) : Prop := c.hh ≤ 23 ∧ c.mm ≤ 59

instance (c : ClockCode) : Decidable c.WF := by
  unfold ClockCode.WF; infer_instance

/-- A weather observation, reduced to the fields the engine reads:
the date key `r.local_time.slice(0,10)` (as a day number), the hour
`new Date(r.local_time).getHours()`, the `flight_category`, and the
nullable `temp_C`. -/
structure WeatherRecord where
  date : Int
  hour : Nat
  flight_category : FlightCat
  temp_C : Option ℚ
deriving DecidableEq, Repr

/-! ## Calendar Grid Builder (`buildWeeks`, all variants) -/

/-- JavaScript `Date.prototype.getDay` (Sunday = 0) for a day number. -/
def jsGetDay (d : Int) : Int := (d + 4) % 7

/-- The rewind `first.setDate(first.getDate() - ((first.getDay() + 6) % 7))`:
the Monday on or before `d`. -/
def mondayOnOrBefore (d : Int) : Int := d - ((jsGetDay d + 6) % 7)

/-- The inner loop `for (let i = 0; i < 7; i++) { wk.push(new Date(cur));
cur.setDate(cur.getDate() + 1); }`, unrolled: seven consecutive dates
starting at `cur`. -/
def weekOf (cur : Int) : List Int :=
  [cur, cur + 1, cur + 2, cur + 3, cur + 4, cur + 5, cur + 6]

/-- The outer loop `while (cur <= end) { ...push week...; }` of
`buildWeeks`, with an explicit fuel bound on the number of remaining
iterations (the loop advances `cur` by 7 each pass, so `(end + 1 - cur)`
passes always suffice). -/
def buildWeeksAux (e : Int) : Nat → Int → List (List Int)
  | 0, _ => []
  | fuel + 1, cur =>
    if cur ≤ e then weekOf cur :: buildWeeksAux e fuel (cur + 7) else []

/-- The function `buildWeeks(start, end)`: rewind `start` to its Monday, then emit
7-day weeks while the cursor is on or before `end`. -/
def buildWeeks (start e : Int) : List (List Int) :=
  buildWeeksAux e (e + 1 - mondayOnOrBefore start).toNat (mondayOnOrBefore start)

/-- The day-stepping loop of `part_004`'s `getWeeks`:
`for (let d = first; d <= end; d.setDate(d.getDate() + 1)) { week.push(d);
if (week.length === 7) { weeks.push(week); week = []; } }`, followed after
the loop by `if (week.length) weeks.push(week);`.  The fuel bounds the
remaining day-steps (`d` advances by one per pass, so `end + 1 - d`
passes always suffice, and zero fuel coincides with the exit test). -/
def getWeeksLoop (e : Int) : Nat → Int → List Int → List (List Int) → List (List Int)
  | 0, _, week, weeks => weeks ++ if week = [] then [] else [week]
  | fuel + 1, d, week, weeks =>
    if d ≤ e then
      if (week ++ [d]).length = 7 then
        getWeeksLoop e fuel (d + 1) [] (weeks ++ [week ++ [d]])
      else
        getWeeksLoop e fuel (d + 1) (week ++ [d]) weeks
    else weeks ++ if week = [] then [] else [week]

/-- The `getWeeks(start, end)` of `part_004`: align to the Monday on or
before `start` (the same `(dow + 6) % 7` offset), then walk day by day
only while `d <= end`, chunking into 7s and pushing a trailing partial
week — unlike `buildWeeks` it does not materialize the final week past
the end date.  (The `const all = getAllDates(start, end)` binding in the
source is never read afterwards and is omitted.) -/
def getWeeks (start e : Int) : List (List Int) :=
  getWeeksLoop e (e + 1 - mondayOnOrBefore start).toNat (mondayOnOrBefore start) [] []

/-! ## Time Interval Model (`renderBlocks` parsing, two variants) -/

/-- The fractional hour `sh + sm/60` parsed from a clock code. -/
def parsedHour (c : ClockCode) : ℚ := (c.hh : ℚ) + (c.mm : ℚ) / 60

/-- The computed interval end of the `part_005` / `App (19)` / `App (24)`
variants: `if (eH <= sH) eH += 24`. -/
def computedEndLe (s e : ClockCode) : ℚ :=
  if parsedHour e ≤ parsedHour s then parsedHour e + 24 else parsedHour e

/-- The computed interval end of the `part_000` / `part_003` variants:
`if (eH < sH) eH += 24`. -/
def computedEndLt (s e : ClockCode) : ℚ :=
  if parsedHour e < parsedHour s then parsedHour e + 24 else parsedHour e

/-- The width `(eH - sH) * hourPx` in the `<=` variants. -/
def widthLe (s e : ClockCode) (scale : ℚ) : ℚ :=
  (computedEndLe s e - parsedHour s) * scale

/-- The width `(eH - sH) * hourPx` in the `<` variants. -/
def widthLt (s e : ClockCode) (scale : ℚ) : ℚ :=
  (computedEndLt s e - parsedHour s) * scale

/-! ## Weather Join Index (`metarLookup`, all variants) -/

/-- One insertion step of the index build loop:
`m[key] = m[key] || {}; m[key][hr] = r` — overwrite the entry at
`(r.date, r.hour)`, keep every other entry of the accumulator. -/
def metarInsert (m : Int → Nat → Option WeatherRecord) (r : WeatherRecord) :
    Int → Nat → Option WeatherRecord :=
  fun d h => if d = r.date ∧ h = r.hour then some r else m d h

/-- The build loop `metarData.forEach(r => { ... m[key][hr] = r; })` from the
empty object: the two-level (date, hour) join index, modelled as a
partial lookup function. -/
def metarLookup (rs : List WeatherRecord) : Int → Nat → Option WeatherRecord :=
  rs.foldl metarInsert (fun _ _ => none)

/-! ## Category Membership Test (`blockHasCategory`, `part_005` / `App (24)`) -/

/-- One iteration body of the membership loop at minute `t`:
`hr = Math.floor(t/60)`; if `hr >= 24` the lookup key becomes the next
calendar date with `hr %= 24`; the step reports a match when the looked-up
record exists and its `flight_category` equals the target. -/
def hourStepMatch (lookup : Int → Nat → Option WeatherRecord) (date : Int)
    (cat : FlightCat) (t : Nat) : Bool :=
  let hr := t / 60
  match (if 24 ≤ hr then lookup (date + 1) (hr % 24) else lookup date hr) with
  | some r => decide (r.flight_category = cat)
  | none => false

/-- The loop `for (let t = sMin; t < eMin; t += 60)` of
`blockHasCategory`, recursing on the iteration count
`⌈(eMin - sMin) / 60⌉` (the loop advances `t` by exactly 60 each pass,
so that count is the precise number of passes). -/
def blockStep (lookup : Int → Nat → Option WeatherRecord) (date : Int)
    (cat : FlightCat) : Nat → Nat → Bool
  | _, 0 => false
  | t, n + 1 =>
    if hourStepMatch lookup date cat t then true
    else blockStep lookup date cat (t + 60) n

/-- The test `blockHasCategory(date, start, end, cat)`: minute-of-day bounds with
`if (eMin <= sMin) eMin += 1440`, then the hourly stepping loop. -/
def blockHasCategory (lookup : Int → Nat → Option WeatherRecord) (date : Int)
    (s e : ClockCode) (cat : FlightCat) : Bool :=
  let sMin := s.hh * 60 + s.mm
  let eMin0 := e.hh * 60 + e.mm
  let eMin := if eMin0 ≤ sMin then eMin0 + 1440 else eMin0
  blockStep lookup date cat sMin ((eMin - sMin + 59) / 60)

/-! ## Overlay Aggregator (`renderBlocks` of `part_005` / `App (19)`) -/

/-- A renderable activity segment: pixel offset, pixel width, fill
color (the presentation fields the engine computes). -/
structure Segment where
  left : ℚ
  width : ℚ
  color : String
deriving DecidableEq, Repr

/-- The geometry `part_005`'s `renderBlocks` computes for one block:
`left = sH*hourPx`, `width = (eH-sH)*hourPx` with the `<=` cross-midnight
rule, colored by the aircraft's color. -/
def toSegment (hourPx : ℚ) (color : String) (b : ClockCode × ClockCode) :
    Segment :=
  ⟨parsedHour b.1 * hourPx, (computedEndLe b.1 b.2 - parsedHour b.1) * hourPx, color⟩

/-- The `renderBlocks` of `part_005`: map over the date's blocks, return
`null` (dropped) when no enabled category matches
(`!Object.entries(catFilters).some(([c,on]) => on && blockHasCategory(...))`),
otherwise the positioned segment. -/
def renderBlocks (lookup : Int → Nat → Option WeatherRecord)
    (catFilters : FlightCat → Bool) (hourPx : ℚ) (color : String)
    (date : Int) (blocks : List (ClockCode × ClockCode)) : List Segment :=
  blocks.filterMap fun b =>
    if allCats.any (fun c => catFilters c && blockHasCategory lookup date b.1 b.2 c) then
      some (toSegment hourPx color b)
    else none

/-- The `{visible[t] && renderBlocks(t,d)}` guard at the call site of
`renderBlocks`: a hidden aircraft contributes nothing. -/
def renderDayCell (visible : Bool) (lookup : Int → Nat → Option WeatherRecord)
    (catFilters : FlightCat → Bool) (hourPx : ℚ) (color : String)
    (date : Int) (blocks : List (ClockCode × ClockCode)) : List Segment :=
  if visible then renderBlocks lookup catFilters hourPx color date blocks else []

/-! ## Temperature band map (`tempToColor`, all variants) -/

/-- The map `tempToColor(temp)`: `temp == null` (null or undefined) yields the
transparent sentinel, otherwise the six-breakpoint band chain. -/
def tempToColor (temp : Option ℚ) : String :=
  match temp with
  | none => "transparent"
  | some t =>
    if t ≤ -30 then "#2c003e"
    else if t ≤ -10 then "#0033cc"
    else if t ≤ 0 then "#33ccff"
    else if t ≤ 10 then "#66ffcc"
    else if t ≤ 20 then "#ffff99"
    else if t ≤ 30 then "#ffcc00"
    else "#ff3300"

/-! ## Calendar Grid Builder: properties -/

theorem mondayOnOrBefore_le (d : Int) : mondayOnOrBefore d ≤ d := by
  unfold mondayOnOrBefore jsGetDay; omega

theorem mondayOnOrBefore_close (d : Int) : d - mondayOnOrBefore d < 7 := by
  unfold mondayOnOrBefore jsGetDay; omega

theorem jsGetDay_mondayOnOrBefore (d : Int) :
    jsGetDay (mondayOnOrBefore d) = 1 := by
  unfold mondayOnOrBefore jsGetDay; omega

/-- Indexing the emitted weeks: with enough fuel, week `k` exists iff the
cursor `c + 7k` is still on or before the end date, and is then the seven
days starting there. -/
theorem buildWeeksAux_get? (e : Int) :
    ∀ (fuel : Nat) (c : Int), (e + 1 - c).toNat ≤ fuel →
      ∀ k : Nat, (buildWeeksAux e fuel c).get? k =
        if c + 7 * (k : Int) ≤ e then some (weekOf (c + 7 * (k : Int))) else none := by
  intro fuel
  induction fuel with
  | zero =>
    intro c hc k
    have hne : ¬ (c + 7 * (k : Int) ≤ e) := by omega
    simp [buildWeeksAux, hne]
  | succ n ih =>
    intro c hc k
    by_cases hce : c ≤ e
    · cases k with
      | zero =>
        simp [buildWeeksAux, hce]
      | succ k =>
        have h7 : (e + 1 - (c + 7)).toNat ≤ n := by omega
        have hik := ih (c + 7) h7 k
        have harg : c + 7 + 7 * (k : Int) = c + 7 * ((k : Int) + 1) := by ring
        rw [harg] at hik
        simp only [buildWeeksAux, if_pos hce, List.get?_cons_succ]
        rw [hik]
        have hcast : ((k + 1 : Nat) : Int) = (k : Int) + 1 := by push_cast; ring
        rw [hcast]
    · have hne : ¬ (c + 7 * (k : Int) ≤ e) := by omega
      simp [buildWeeksAux, hce, hne]

theorem buildWeeks_get? (s e : Int) (k : Nat) :
    (buildWeeks s e).get? k =
      if mondayOnOrBefore s + 7 * (k : Int) ≤ e then
        some (weekOf (mondayOnOrBefore s + 7 * (k : Int))) else none := by
  unfold buildWeeks
  exact buildWeeksAux_get? e _ _ (le_refl _) k

theorem weekOf_length (m : Int) : (weekOf m).length = 7 := rfl

theorem weekOf_consecutive (m : Int) (i : Nat) (hi : i < 6) :
    ∃ a : Int, (weekOf m).get? i = some a ∧ (weekOf m).get? (i + 1) = some (a + 1) := by
  interval_cases i <;> refine ⟨_, rfl, ?_⟩ <;> simp [weekOf] <;> ring

/-- C4 counterexample: day 3 (1970-01-04, a Sunday) is strictly after
day 2, yet `buildWeeks 3 2` back-fills to the Monday six days earlier and
emits a full week. -/
theorem buildWeeks_start_after_end_cex :
    (2 : Int) < 3 ∧ buildWeeks 3 2 ≠ [] := by decide

/-- C4 (amended): the Calendar Grid Builder produces an empty sequence of
weeks exactly when even the Monday on or before the start date falls after
the end date; a start date later than the end date whose back-filled
Monday is still on or before the end date yields a (nonempty) week. -/
theorem buildWeeks_eq_nil_iff (s e : Int) :
    buildWeeks s e = [] ↔ e < mondayOnOrBefore s := by
  unfold buildWeeks
  constructor
  · intro h
    by_contra hle
    push_neg at hle
    have h1 : (e + 1 - mondayOnOrBefore s).toNat = (e - mondayOnOrBefore s).toNat + 1 := by
      omega
    rw [h1] at h
    simp [buildWeeksAux, hle] at h
  · intro h
    have h0 : (e + 1 - mondayOnOrBefore s).toNat = 0 := by omega
    rw [h0]
    rfl

/-- C5 counterexample: the claim's sources also cite `part_004`'s
`getWeeks`, which walks only while `d <= end` and then pushes the
leftover partial chunk — for start day 0 with end day 7 (start on or
before end) it emits a full first week and then a truncated final week
of 4 dates, so "every week has exactly 7 dates / the final week is fully
materialized" fails for that cited implementation. -/
theorem getWeeks_partial_week_cex :
    (0 : Int) ≤ 7 ∧
    getWeeks 0 7 = [[-3, -2, -1, 0, 1, 2, 3], [4, 5, 6, 7]] ∧
    ¬ ∀ w ∈ getWeeks 0 7, w.length = 7 := by
  decide

/-- C5 (amended): in the `buildWeeks` variants (`part_000`, `part_005`,
`App (19)`, `App (24)`), for any range with start on or before end, the
first emitted week is the seven days from the Monday on or before the
start date (a true Monday, at most six days back), and every emitted week
holds exactly 7 consecutive calendar dates — the final week included,
even when its dates trail past the requested end; the `part_004`
`getWeeks` variant instead stops at the end date and pushes the leftover
partial week, so there the final week can hold fewer than 7 dates. -/
theorem buildWeeks_weeks_wellformed (s e : Int) (hse : s ≤ e) :
    (buildWeeks s e).get? 0 = some (weekOf (mondayOnOrBefore s)) ∧
    mondayOnOrBefore s ≤ s ∧ s - mondayOnOrBefore s < 7 ∧
    jsGetDay (mondayOnOrBefore s) = 1 ∧
    ∀ w ∈ buildWeeks s e, w.length = 7 ∧
      ∀ i : Nat, i < 6 →
        ∃ a : Int, w.get? i = some a ∧ w.get? (i + 1) = some (a + 1) := by
  refine ⟨?_, mondayOnOrBefore_le s, mondayOnOrBefore_close s,
    jsGetDay_mondayOnOrBefore s, ?_⟩
  · have h0 := buildWeeks_get? s e 0
    have hcond : mondayOnOrBefore s + 7 * ((0 : Nat) : Int) ≤ e := by
      have := mondayOnOrBefore_le s
      push_cast
      omega
    rw [if_pos hcond] at h0
    rw [h0]
    norm_num
  · intro w hw
    obtain ⟨k, hk⟩ := List.mem_iff_get?.mp hw
    rw [buildWeeks_get? s e k] at hk
    by_cases hc : mondayOnOrBefore s + 7 * (k : Int) ≤ e
    · rw [if_pos hc] at hk
      obtain rfl : weekOf (mondayOnOrBefore s + 7 * (k : Int)) = w := by
        injection hk
      exact ⟨weekOf_length _, weekOf_consecutive _⟩
    · rw [if_neg hc] at hk
      cases hk

/-- C10: consecutive weeks are contiguous — the last (Sunday) date of a
week is exactly one day before the first (Monday) date of the next emitted
week, so the flattened grid is an unbroken run of calendar days. -/
theorem buildWeeks_contiguous (s e : Int) (i : Nat) (wi wj : List Int)
    (hi : (buildWeeks s e).get? i = some wi)
    (hj : (buildWeeks s e).get? (i + 1) = some wj) :
    ∃ a : Int, wi.getLast? = some a ∧ wj.head? = some (a + 1) := by
  rw [buildWeeks_get? s e i] at hi
  rw [buildWeeks_get? s e (i + 1)] at hj
  by_cases hci : mondayOnOrBefore s + 7 * (i : Int) ≤ e
  · rw [if_pos hci] at hi
    obtain rfl : weekOf (mondayOnOrBefore s + 7 * (i : Int)) = wi := by injection hi
    by_cases hcj : mondayOnOrBefore s + 7 * ((i + 1 : Nat) : Int) ≤ e
    · rw [if_pos hcj] at hj
      obtain rfl : weekOf (mondayOnOrBefore s + 7 * ((i + 1 : Nat) : Int)) = wj := by
        injection hj
      refine ⟨mondayOnOrBefore s + 7 * (i : Int) + 6, ?_, ?_⟩
      · simp [weekOf]
      · simp only [weekOf, List.head?_cons, Option.some.injEq]
        push_cast
        ring
    · rw [if_neg hcj] at hj; cases hj
  · rw [if_neg hci] at hi; cases hi

theorem buildWeeks_weeks_wellformed_witness :
    (0 : Int) ≤ 0 ∧
    ((buildWeeks 0 0).get? 0 = some (weekOf (mondayOnOrBefore 0)) ∧
     mondayOnOrBefore 0 ≤ 0 ∧ (0 : Int) - mondayOnOrBefore 0 < 7 ∧
     jsGetDay (mondayOnOrBefore 0) = 1 ∧
     ∀ w ∈ buildWeeks 0 0, w.length = 7 ∧
       ∀ i : Nat, i < 6 →
         ∃ a : Int, w.get? i = some a ∧ w.get? (i + 1) = some (a + 1)) :=
  ⟨by decide, buildWeeks_weeks_wellformed 0 0 (by decide)⟩

theorem buildWeeks_contiguous_witness :
    (buildWeeks 0 10).get? 0 = some [-3, -2, -1, 0, 1, 2, 3] ∧
    (buildWeeks 0 10).get? 1 = some [4, 5, 6, 7, 8, 9, 10] ∧
    ∃ a : Int, ([-3, -2, -1, 0, 1, 2, 3] : List Int).getLast? = some a ∧
      ([4, 5, 6, 7, 8, 9, 10] : List Int).head? = some (a + 1) :=
  ⟨by decide, by decide,
   buildWeeks_contiguous 0 10 0 [-3, -2, -1, 0, 1, 2, 3] [4, 5, 6, 7, 8, 9, 10]
     (by decide) (by decide)⟩

/-! ## Category Membership Test: properties -/

theorem hourStepMatch_eq_true_iff (lookup : Int → Nat → Option WeatherRecord)
    (date : Int) (cat : FlightCat) (t : Nat) :
    hourStepMatch lookup date cat t = true ↔
      ∃ r : WeatherRecord,
        (if 24 ≤ t / 60 then lookup (date + 1) (t / 60 % 24)
         else lookup date (t / 60)) = some r ∧
        r.flight_category = cat := by
  unfold hourStepMatch
  cases h : (if 24 ≤ t / 60 then lookup (date + 1) (t / 60 % 24) else lookup date (t / 60)) with
  | none => simp [h]
  | some r => simp [h]

theorem blockStep_eq_true_iff (lookup : Int → Nat → Option WeatherRecord)
    (date : Int) (cat : FlightCat) :
    ∀ (n t : Nat), blockStep lookup date cat t n = true ↔
      ∃ i : Nat, i < n ∧ hourStepMatch lookup date cat (t + 60 * i) = true := by
  intro n
  induction n with
  | zero =>
    intro t
    simp [blockStep]
  | succ n ih =>
    intro t
    rw [blockStep]
    by_cases h : hourStepMatch lookup date cat t = true
    · simp only [if_pos h, true_iff]
      exact ⟨0, Nat.succ_pos n, by simpa using h⟩
    · rw [if_neg h, ih]
      constructor
      · rintro ⟨i, hin, hm⟩
        refine ⟨i + 1, by omega, ?_⟩
        have harg : t + 60 * (i + 1) = t + 60 + 60 * i := by ring
        rwa [harg]
      · rintro ⟨i, hin, hm⟩
        cases i with
        | zero =>
          simp only [Nat.mul_zero, Nat.add_zero] at hm
          exact absurd hm h
        | succ i =>
          refine ⟨i, by omega, ?_⟩
          have harg : t + 60 * (i + 1) = t + 60 + 60 * i := by ring
          rwa [harg] at hm

theorem stepCount_iff (sMin eMin i : Nat) :
    i < (eMin - sMin + 59) / 60 ↔ sMin + 60 * i < eMin := by omega

/-- C2: the membership test reports a match iff some hour-bucket obtained
by stepping from `sMin` in 60-minute increments while strictly below
`eMin` (with 1440 added to `eMin` when the end is at or before the start)
holds an indexed record of the target category, where a stepped hour of 24
or more is looked up on the next calendar date with the hour reduced
modulo 24. -/
theorem blockHasCategory_step_characterization
    (lookup : Int → Nat → Option WeatherRecord) (date : Int)
    (s e : ClockCode) (cat : FlightCat) :
    blockHasCategory lookup date s e cat = true ↔
      ∃ i : Nat,
        s.hh * 60 + s.mm + 60 * i <
          (if e.hh * 60 + e.mm ≤ s.hh * 60 + s.mm
           then e.hh * 60 + e.mm + 1440 else e.hh * 60 + e.mm) ∧
        ∃ r : WeatherRecord,
          (if 24 ≤ (s.hh * 60 + s.mm + 60 * i) / 60
           then lookup (date + 1) ((s.hh * 60 + s.mm + 60 * i) / 60 % 24)
           else lookup date ((s.hh * 60 + s.mm + 60 * i) / 60)) = some r ∧
          r.flight_category = cat := by
  unfold blockHasCategory
  rw [blockStep_eq_true_iff]
  apply exists_congr
  intro i
  rw [stepCount_iff, hourStepMatch_eq_true_iff]

/-- Modelled from the spec: the §4.4 contract asks whether "any hour
touched by the interval (including hours on the following calendar date
for cross-midnight intervals) has an indexed observation in that
category".  With the minute bounds `[sMin, eMin)` of §4.4, an extended
hour-of-day bucket `h` (running past 23 into the next day) is touched
exactly when its span `[60h, 60h + 60)` meets `[sMin, eMin)`, i.e. when
`sMin / 60 ≤ h` and `60h < eMin`; the bucket's observation is read with
the same next-day rollover as the code. -/
def specTouchedMatch (lookup : Int → Nat → Option WeatherRecord) (date : Int)
    (s e : ClockCode) (cat : FlightCat) : Bool :=
  let sMin := s.hh * 60 + s.mm
  let eMin0 := e.hh * 60 + e.mm
  let eMin := if eMin0 ≤ sMin then eMin0 + 1440 else eMin0
  (List.range 48).any fun h =>
    sMin / 60 ≤ h && 60 * h < eMin && hourStepMatch lookup date cat (60 * h)

/-- The date 2025-01-15 as a day number (days since 1970-01-01); its weekday under
`jsGetDay` is 3 (Wednesday), as on the real calendar. -/
def date20250115 : Int := 20103

/-- A lone IFR observation at 2025-01-16 01:00 local time. -/
def recIFR0116 : WeatherRecord := ⟨date20250115 + 1, 1, .IFR, none⟩

/-- A join index holding only `recIFR0116`. -/
def lookupIFR0116 : Int → Nat → Option WeatherRecord :=
  metarLookup [recIFR0116]

/-- C1 counterexample: the interval ("2330","0130") anchored to
2025-01-15 touches hour 1 of 2025-01-16 (the interval runs until 01:30),
and the index holds an IFR observation exactly there, yet
`blockHasCategory` reports no IFR match: its 60-minute stepping from
23:30 examines only hour 23 of 2025-01-15 and hour 0 of 2025-01-16,
never hour 1. -/
theorem blockHasCategory_touched_cex :
    ClockCode.WF ⟨23, 30⟩ ∧ ClockCode.WF ⟨1, 30⟩ ∧
    specTouchedMatch lookupIFR0116 date20250115 ⟨23, 30⟩ ⟨1, 30⟩ .IFR = true ∧
    blockHasCategory lookupIFR0116 date20250115 ⟨23, 30⟩ ⟨1, 30⟩ .IFR = false := by
  decide

/-- C1 (amended): the membership test consults exactly the hour-buckets
reached by 60-minute steps from the interval's start that stay strictly
below its (cross-midnight adjusted) end; for the interval ("2330","0130")
anchored to any calendar date those are hour 23 of the anchor date and
hour 0 of the following date — hour 1 of the following date, though
touched by the interval, is not examined. -/
theorem blockHasCategory_2330_0130 (lookup : Int → Nat → Option WeatherRecord)
    (date : Int) (cat : FlightCat) :
    blockHasCategory lookup date ⟨23, 30⟩ ⟨1, 30⟩ cat = true ↔
      (∃ r : WeatherRecord, lookup date 23 = some r ∧ r.flight_category = cat) ∨
      (∃ r : WeatherRecord, lookup (date + 1) 0 = some r ∧ r.flight_category = cat) := by
  rw [blockHasCategory_step_characterization]
  constructor
  · rintro ⟨i, hlt, r, hr, hc⟩
    norm_num at hlt
    have hi2 : i < 2 := by omega
    interval_cases i
    · left
      norm_num at hr
      exact ⟨r, hr, hc⟩
    · right
      norm_num at hr
      exact ⟨r, hr, hc⟩
  · rintro (⟨r, hr, hc⟩ | ⟨r, hr, hc⟩)
    · exact ⟨0, by norm_num, r, by norm_num; exact hr, hc⟩
    · exact ⟨1, by norm_num, r, by norm_num; exact hr, hc⟩

/-! ## Time Interval Model: properties -/

theorem parsedHour_nonneg (c : ClockCode) : 0 ≤ parsedHour c := by
  unfold parsedHour
  positivity

theorem parsedHour_lt_24 (c : ClockCode) (h : c.WF) : parsedHour c < 24 := by
  obtain ⟨h1, h2⟩ := h
  unfold parsedHour
  have hh : (c.hh : ℚ) ≤ 23 := by exact_mod_cast h1
  have hm : (c.mm : ℚ) ≤ 59 := by exact_mod_cast h2
  have : (c.mm : ℚ) / 60 ≤ 59 / 60 := by linarith
  linarith

/-- C3 counterexample: in the `part_000` / `part_003` variants (strict
`<` rollover test) a well-formed interval whose parsed end equals its
parsed start keeps its computed end unchanged instead of gaining 24. -/
theorem computedEnd_boundary_cex :
    ClockCode.WF ⟨1, 0⟩ ∧
    parsedHour ⟨1, 0⟩ ≤ parsedHour ⟨1, 0⟩ ∧
    computedEndLt ⟨1, 0⟩ ⟨1, 0⟩ ≠ parsedHour ⟨1, 0⟩ + 24 := by
  refine ⟨by decide, le_refl _, ?_⟩
  unfold computedEndLt parsedHour
  norm_num

/-- C3 (amended): in the variants testing `end <= start` the computed end
is parsed-end + 24 whenever the parsed end is at or before the parsed
start; in the variants testing `end < start` this holds only for a
strictly earlier end, and an interval with equal endpoints keeps its
parsed end (width 0).  The computed width is non-negative in both
families for any non-negative scale. -/
theorem computedEnd_crossMidnight (s e : ClockCode) (hs : s.WF) (he : e.WF)
    (scale : ℚ) (hscale : 0 ≤ scale) :
    (parsedHour e ≤ parsedHour s → computedEndLe s e = parsedHour e + 24) ∧
    (parsedHour e < parsedHour s → computedEndLt s e = parsedHour e + 24) ∧
    (parsedHour e = parsedHour s → computedEndLt s e = parsedHour e) ∧
    0 ≤ widthLe s e scale ∧ 0 ≤ widthLt s e scale := by
  have hs24 := parsedHour_lt_24 s hs
  have he0 := parsedHour_nonneg e
  refine ⟨?_, ?_, ?_, ?_, ?_⟩
  · intro h
    unfold computedEndLe
    rw [if_pos h]
  · intro h
    unfold computedEndLt
    rw [if_pos h]
  · intro h
    unfold computedEndLt
    rw [if_neg (by rw [h]; exact lt_irrefl _)]
  · unfold widthLe computedEndLe
    split_ifs with h
    · apply mul_nonneg _ hscale
      linarith
    · apply mul_nonneg _ hscale
      push_neg at h
      linarith
  · unfold widthLt computedEndLt
    split_ifs with h
    · apply mul_nonneg _ hscale
      linarith
    · apply mul_nonneg _ hscale
      push_neg at h
      linarith

theorem computedEnd_crossMidnight_witness :
    ClockCode.WF ⟨23, 30⟩ ∧ ClockCode.WF ⟨1, 30⟩ ∧ (0 : ℚ) ≤ 4 ∧
    ((parsedHour ⟨1, 30⟩ ≤ parsedHour ⟨23, 30⟩ →
        computedEndLe ⟨23, 30⟩ ⟨1, 30⟩ = parsedHour ⟨1, 30⟩ + 24) ∧
     (parsedHour ⟨1, 30⟩ < parsedHour ⟨23, 30⟩ →
        computedEndLt ⟨23, 30⟩ ⟨1, 30⟩ = parsedHour ⟨1, 30⟩ + 24) ∧
     (parsedHour ⟨1, 30⟩ = parsedHour ⟨23, 30⟩ →
        computedEndLt ⟨23, 30⟩ ⟨1, 30⟩ = parsedHour ⟨1, 30⟩) ∧
     0 ≤ widthLe ⟨23, 30⟩ ⟨1, 30⟩ 4 ∧ 0 ≤ widthLt ⟨23, 30⟩ ⟨1, 30⟩ 4) :=
  ⟨by decide, by decide, by norm_num,
   computedEnd_crossMidnight ⟨23, 30⟩ ⟨1, 30⟩ (by decide) (by decide) 4 (by norm_num)⟩

/-- C8: an interval entirely within a single day (parsed end strictly
after parsed start) round-trips unchanged — both variants compute
`width = (parsed-end − parsed-start) × scale` exactly. -/
theorem width_roundtrip (s e : ClockCode) (scale : ℚ)
    (h : parsedHour s < parsedHour e) :
    widthLt s e scale = (parsedHour e - parsedHour s) * scale ∧
    widthLe s e scale = (parsedHour e - parsedHour s) * scale := by
  constructor
  · unfold widthLt computedEndLt
    rw [if_neg (by linarith)]
  · unfold widthLe computedEndLe
    rw [if_neg (by linarith)]

theorem width_roundtrip_witness :
    parsedHour ⟨9, 0⟩ < parsedHour ⟨10, 30⟩ ∧
    (widthLt ⟨9, 0⟩ ⟨10, 30⟩ 4 = (parsedHour ⟨10, 30⟩ - parsedHour ⟨9, 0⟩) * 4 ∧
     widthLe ⟨9, 0⟩ ⟨10, 30⟩ 4 = (parsedHour ⟨10, 30⟩ - parsedHour ⟨9, 0⟩) * 4) :=
  ⟨by norm_num [parsedHour], width_roundtrip ⟨9, 0⟩ ⟨10, 30⟩ 4 (by norm_num [parsedHour])⟩

/-! ## Temperature band map: properties -/

/-- C9: a null (or undefined) temperature is never classified into a
band — the map returns the transparent sentinel, and no actual
temperature ever produces that sentinel. -/
theorem tempToColor_null_transparent :
    tempToColor none = "transparent" ∧
    ∀ t : ℚ, tempToColor (some t) ≠ "transparent" := by
  refine ⟨rfl, ?_⟩
  intro t
  simp only [tempToColor]
  split_ifs <;> decide

/-! ## Weather Join Index: properties -/

/-- Unrolling the build loop: the folded index answers with the last
source record whose (date, hour) key matches, falling back to the
accumulator it started from. -/
theorem metarLookup_foldl (d : Int) (h : Nat) :
    ∀ (rs : List WeatherRecord) (acc : Int → Nat → Option WeatherRecord),
      rs.foldl metarInsert acc d h =
        match (rs.filter fun r => decide (r.date = d ∧ r.hour = h)).getLast? with
        | some r => some r
        | none => acc d h := by
  intro rs
  induction rs with
  | nil => intro acc; rfl
  | cons r rs ih =>
    intro acc
    rw [List.foldl_cons, ih]
    by_cases hp : r.date = d ∧ r.hour = h
    · rw [List.filter_cons_of_pos (by simpa using hp)]
      cases hfl : rs.filter fun x => decide (x.date = d ∧ x.hour = h) with
      | nil =>
        have hcond : d = r.date ∧ h = r.hour := ⟨hp.1.symm, hp.2.symm⟩
        simp [List.getLast?_singleton, metarInsert, hcond]
      | cons x xs =>
        rw [List.getLast?_cons_cons]
        obtain ⟨y, hy⟩ : ∃ y, (x :: xs).getLast? = some y := by
          cases hxy : (x :: xs).getLast? with
          | none => exact absurd (List.getLast?_eq_none_iff.mp hxy) (List.cons_ne_nil x xs)
          | some y => exact ⟨y, rfl⟩
        rw [hy]
    · rw [List.filter_cons_of_neg (by simpa using hp)]
      have hcond : ¬ (d = r.date ∧ h = r.hour) := fun hc => hp ⟨hc.1.symm, hc.2.symm⟩
      cases hfl : (rs.filter fun x => decide (x.date = d ∧ x.hour = h)).getLast? with
      | none => simp [metarInsert, hcond]
      | some y => rfl

/-- The date 2025-01-01 as a day number (days since 1970-01-01). -/
def date20250101 : Int := 20089

/-- First record of the spec's duplicate-bucket example: 2025-01-01T05:00,
category VFR. -/
def recVFR0501 : WeatherRecord := ⟨date20250101, 5, .VFR, none⟩

/-- Second record of the spec's duplicate-bucket example: 2025-01-01T05:00,
category IFR, inserted after the VFR one. -/
def recIFR0501 : WeatherRecord := ⟨date20250101, 5, .IFR, none⟩

/-- C6: the join index answers a (date, hour) query with the last source
record carrying that key — so it has (at most) one entry per bucket, an
entry exists exactly when some source record hits the bucket, and in the
duplicated 2025-01-01 05:00 example the IFR record inserted second wins. -/
theorem metarLookup_lastWriteWins (rs : List WeatherRecord) (d : Int) (h : Nat) :
    metarLookup rs d h =
      (rs.filter fun r => decide (r.date = d ∧ r.hour = h)).getLast? ∧
    ((metarLookup rs d h).isSome ↔ ∃ r ∈ rs, r.date = d ∧ r.hour = h) ∧
    metarLookup [recVFR0501, recIFR0501] date20250101 5 = some recIFR0501 := by
  have key : metarLookup rs d h =
      (rs.filter fun r => decide (r.date = d ∧ r.hour = h)).getLast? := by
    unfold metarLookup
    rw [metarLookup_foldl d h rs]
    cases hfl : (rs.filter fun r => decide (r.date = d ∧ r.hour = h)).getLast? <;> rfl
  refine ⟨key, ?_, by decide⟩
  rw [key, List.getLast?_isSome]
  constructor
  · intro hne
    by_contra hno
    push_neg at hno
    apply hne
    rw [List.filter_eq_nil_iff]
    intro a ha
    simp only [decide_eq_true_eq]
    intro hc
    exact hno a ha hc.1 hc.2
  · rintro ⟨r, hr, h1, h2⟩ hnil
    rw [List.filter_eq_nil_iff] at hnil
    exact hnil r hr (by simp [h1, h2])

/-! ## Overlay Aggregator: properties -/

theorem allCats_any_iff (f : FlightCat → Bool) :
    allCats.any f = true ↔ ∃ c : FlightCat, f c = true := by
  constructor
  · intro h
    obtain ⟨c, _, hc⟩ := List.any_eq_true.mp h
    exact ⟨c, hc⟩
  · rintro ⟨c, hc⟩
    apply List.any_eq_true.mpr
    refine ⟨c, ?_, hc⟩
    cases c <;> simp [allCats]

theorem filterMap_guard_eq_filter_map {α β : Type} (p : α → Bool) (f : α → β) :
    ∀ l : List α,
      (l.filterMap fun b => if p b then some (f b) else none) = (l.filter p).map f := by
  intro l
  induction l with
  | nil => rfl
  | cons a l ih =>
    by_cases h : p a = true <;>
      simp [List.filterMap_cons, List.filter_cons, h, ih]

/-- A lone VFR observation at hour 9 of day 0: the only weather that
co-occurs with the 09:00–10:00 example block. -/
def recVFR0900 : WeatherRecord := ⟨0, 9, .VFR, none⟩

/-- A join index holding only `recVFR0900`. -/
def lookupVFR0900 : Int → Nat → Option WeatherRecord :=
  metarLookup [recVFR0900]

/-- A FilterState with the VFR category disabled and every other category
enabled. -/
def vfrDisabled : FlightCat → Bool := fun c => decide (c ≠ FlightCat.VFR)

/-- C7: the aggregator emits exactly the segments of those blocks for
which at least one enabled weather category passes the membership test —
a block with no enabled-category match is dropped entirely, and a hidden
aircraft contributes nothing; in particular disabling VFR suppresses a
block whose only co-occurring category is VFR. -/
theorem renderDayCell_filter_characterization
    (lookup : Int → Nat → Option WeatherRecord) (catFilters : FlightCat → Bool)
    (hourPx : ℚ) (color : String) (date : Int)
    (blocks : List (ClockCode × ClockCode)) (visible : Bool) :
    (renderDayCell visible lookup catFilters hourPx color date blocks =
      if visible then
        (blocks.filter fun b =>
          decide (∃ c : FlightCat, catFilters c = true ∧
            blockHasCategory lookup date b.1 b.2 c = true)).map (toSegment hourPx color)
      else []) ∧
    renderDayCell true lookupVFR0900 vfrDisabled 4 "#E63946" 0 [(⟨9, 0⟩, ⟨10, 0⟩)] = [] := by
  constructor
  · unfold renderDayCell
    cases visible with
    | false => rfl
    | true =>
      simp only [if_true]
      unfold renderBlocks
      rw [filterMap_guard_eq_filter_map
        (fun b => allCats.any fun c => catFilters c && blockHasCategory lookup date b.1 b.2 c)
        (toSegment hourPx color) blocks]
      congr 1
      apply List.filter_congr
      intro b _
      rw [Bool.eq_iff_iff, allCats_any_iff, decide_eq_true_eq]
      constructor
      · rintro ⟨c, hc⟩
        rw [Bool.and_eq_true] at hc
        exact ⟨c, hc.1, hc.2⟩
      · rintro ⟨c, h1, h2⟩
        exact ⟨c, by rw [h1, h2]; rfl⟩
  · decide
